import Mathlib

/-!
# Shallow embedding of `bufconn` (src/Conn.go)

`bufconn` wraps a byte-stream connection (`net.Conn`) with a message-framing
layer.  A byte-reader goroutine forwards single bytes into `readChan`
(`make(chan byte, 100)`); a scheduler goroutine gives priority to `stopChan`,
otherwise selects between `readChan` (append to `readBuf`, fire the message
handler on the delimiter) and `opChan`; session operations `Read`/`ReadMsg`
busy-poll, each iteration checking the timeout, draining `readChan` into
`readBuf` (`updateWholeBuffer`) and testing the completion condition.

The embedding below models bytes as `Nat`, channels as FIFO lists and
the polling loops as recursion over a trace: one trace entry per loop
iteration, holding the elapsed time observed by `time.Since(now)` at that
iteration and the bytes that have arrived in `readChan` since the previous
iteration.  An exhausted trace leaves the loop still running (`.running`),
matching a loop that has not yet terminated.
-/

namespace Bufconn

/-- A byte (Go `byte`). -/
abbrev Byte := Nat

/-- Result of one polling call: success with a value, the timeout error
(`errors.New("message read timeout")`), or still polling (the loop has not
returned within the modelled iterations). -/
inductive PollResult (α : Type) where
  | ok : α → PollResult α
  | timeoutErr : PollResult α
  | running : PollResult α
deriving DecidableEq, Repr

/-- `func (c *Conn) updateWholeBuffer()`: `for len(c.readChan) > 0 { c.readBuf
= append(c.readBuf, <-c.readChan) }` — drain the pending channel into the read
buffer, one byte at a time, front first. -/
def updateWholeBuffer : List Byte → List Byte → List Byte
  | buf, [] => buf
  | buf, b :: rest => updateWholeBuffer (buf ++ [b]) rest

/-- The delimiter scan inside `ReadMsg`: `for i, b := range c.Conn.readBuf {
if b == c.Conn.msgDelim { ... } }`.  Returns the bytes before the first
occurrence of the delimiter together with the bytes after it, or `none` when
the delimiter does not occur. -/
def scanDelim (delim : Byte) : List Byte → Option (List Byte × List Byte)
  | [] => none
  | b :: rest =>
    if b = delim then some ([], rest)
    else
      match scanDelim delim rest with
      | some (msg, remain) => some (b :: msg, remain)
      | none => none

/-- `func (c *C) ReadMsg(timeout time.Duration) (string, error)`.  Each loop
iteration: return the timeout error if `time.Since(now) > timeout && timeout
!= 0`; otherwise drain the channel (`updateWholeBuffer`) and scan for the
delimiter; on a hit at index `i` return the first `i` bytes and keep
`readBuf[i+1:]`.  The trace supplies, per iteration, the elapsed time and the
bytes newly arrived in `readChan`.  Returns the call result and the read
buffer left behind. -/
def ReadMsg (delim timeout : Nat) :
    List (Nat × List Byte) → List Byte → PollResult (List Byte) × List Byte
  | [], buf => (.running, buf)
  | (t, arrived) :: rest, buf =>
    if t > timeout ∧ timeout ≠ 0 then (.timeoutErr, buf)
    else
      match scanDelim delim (updateWholeBuffer buf arrived) with
      | some (msg, remain) => (.ok msg, remain)
      | none => ReadMsg delim timeout rest (updateWholeBuffer buf arrived)

/-- `func (c *C) Read(n int, timeout time.Duration) ([]byte, error)`.  Same
polling loop as `ReadMsg` but the completion condition is
`len(c.Conn.readBuf) >= n`, upon which the first `n` bytes are returned and
`readBuf[n:]` is kept. -/
def Read (n timeout : Nat) :
    List (Nat × List Byte) → List Byte → PollResult (List Byte) × List Byte
  | [], buf => (.running, buf)
  | (t, arrived) :: rest, buf =>
    if t > timeout ∧ timeout ≠ 0 then (.timeoutErr, buf)
    else
      if n ≤ (updateWholeBuffer buf arrived).length then
        ((.ok ((updateWholeBuffer buf arrived).take n)),
          (updateWholeBuffer buf arrived).drop n)
      else Read n timeout rest (updateWholeBuffer buf arrived)

/-- `func (c *C) WriteMsg(msg string)`: `c.Write(append([]byte(msg),
c.Conn.msgDelim))` — the byte sequence handed to the single `Write` call. -/
def WriteMsg (msg : List Byte) (delim : Byte) : List Byte :=
  msg ++ [delim]

/-- The lifecycle-relevant fields of `Conn`: the `isStopped` flag and the
`stopChan` channel contents (capacity 10; at most one signal is ever sent, so
the capacity is never reached and sends are modelled as plain appends). -/
structure Conn where
  isStopped : Bool
  stopChan : List Bool
deriving DecidableEq, Repr

/-- `func (c *Conn) Stop()`: return immediately when already stopped,
otherwise set `isStopped` and send one signal on `stopChan`. -/
def Stop (c : Conn) : Conn :=
  if c.isStopped then c
  else { isStopped := true, stopChan := c.stopChan ++ [true] }

/-- `func (c *Conn) IsStopped() bool`. -/
def IsStopped (c : Conn) : Bool :=
  c.isStopped

/-- Capacity of `readChan` (`make(chan byte, 100)` in `NewConn`). -/
def readChanCap : Nat := 100

/-- The byte reader's send `conn.readChan <- minibuf[0]`: appends to the
channel when there is room, and blocks (`none`) when the channel already
holds `readChanCap` bytes. -/
def sendReadChan (pending : List Byte) (b : Byte) : Option (List Byte) :=
  if pending.length < readChanCap then some (pending ++ [b]) else none

/-- Outcome of `conn.netconn.Read(minibuf)` inside the byte reader. -/
inductive NetReadResult where
  | ok : Byte → NetReadResult
  | fail : NetReadResult
deriving DecidableEq, Repr

/-- What one iteration of the byte-reader goroutine did. -/
inductive ReaderStep where
  | exited
  | stopping
  | forwarded
  | blockedFull
deriving DecidableEq, Repr

/-- One iteration of the byte-reader goroutine in `NewConn`: exit when
`conn.isStopped`; on a read error call `conn.Stop()` and exit (no retry); on
a byte, forward it into `readChan`. -/
def byteReaderStep (c : Conn) (pending : List Byte) (r : NetReadResult) :
    Conn × List Byte × ReaderStep :=
  if c.isStopped then (c, pending, .exited)
  else
    match r with
    | .fail => (Stop c, pending, .stopping)
    | .ok b =>
      match sendReadChan pending b with
      | some p => (c, p, .forwarded)
      | none => (c, pending, .blockedFull)

/-- Outcome of `c.Conn.netconn.Write(bs)`. -/
inductive WriteResult where
  | ok : Nat → WriteResult
  | fail : WriteResult
deriving DecidableEq, Repr

/-- `func (c *C) Write(bs []byte) (int, error)`: `return
c.Conn.netconn.Write(bs)` — the underlying connection's result is handed
straight back to the caller and the `Conn` state is untouched. -/
def Write (c : Conn) (netResult : WriteResult) : WriteResult × Conn :=
  (netResult, c)

/-- State seen by the scheduler goroutine of `NewConn`: read buffer, the two
input channels, the stop channel, the delimiter, whether `netconn.Close()`
has run, and whether the goroutine has returned. -/
structure SchedState where
  readBuf : List Byte
  readChan : List Byte
  opChan : List Nat
  stopChan : List Bool
  msgDelim : Byte
  connClosed : Bool
  exited : Bool
deriving DecidableEq, Repr

/-- What one scheduler iteration did.  `gotByte b fired` records that `b` was
appended to the read buffer and whether the message handler was invoked
(`b == conn.msgDelim`); `ranOp o` that queued operation `o` ran; `idle` that
nothing was executed (goroutine already exited, or no channel ready). -/
inductive SchedEvent where
  | stopped
  | gotByte : Byte → Bool → SchedEvent
  | ranOp : Nat → SchedEvent
  | idle
deriving DecidableEq, Repr

/-- One iteration of the scheduler goroutine in `NewConn`: first the priority
check `if len(conn.stopChan) > 0` — drain the signal, `conn.netconn.Close()`,
return; otherwise the `select` over `readChan` and `opChan` (`pickByte`
resolves the choice when both are ready; the `select`'s own `stopChan` case
is unreachable here because the priority check just saw it empty). -/
def schedulerStep (pickByte : Bool) (s : SchedState) : SchedState × SchedEvent :=
  if s.exited then (s, .idle)
  else if 0 < s.stopChan.length then
    ({ s with stopChan := s.stopChan.tail, connClosed := true, exited := true }, .stopped)
  else
    match s.readChan, s.opChan with
    | b :: bs, _ :: _ =>
      if pickByte then
        ({ s with readChan := bs, readBuf := s.readBuf ++ [b] },
          .gotByte b (b == s.msgDelim))
      else
        ({ s with opChan := s.opChan.tail }, .ranOp (s.opChan.headD 0))
    | b :: bs, [] =>
      ({ s with readChan := bs, readBuf := s.readBuf ++ [b] },
        .gotByte b (b == s.msgDelim))
    | [], o :: os => ({ s with opChan := os }, .ranOp o)
    | [], [] => (s, .idle)

/-- A run of scheduler iterations, one `pickByte` choice per iteration. -/
def schedulerRun : List Bool → SchedState → SchedState × List SchedEvent
  | [], s => (s, [])
  | p :: ps, s =>
    ((schedulerRun ps (schedulerStep p s).1).1,
      (schedulerStep p s).2 :: (schedulerRun ps (schedulerStep p s).1).2)

/-- A message handler as its effect on the read buffer: given the delimiter,
a polling trace and the buffer, return the buffer it leaves behind. -/
abbrev Handler := Nat → List (Nat × List Byte) → List Byte → List Byte

/-- The handler body `func(c *C) { c.ReadMsg(0) }` used both as the `NewConn`
default and as the `SetMessageHandler` replacement for `nil`: read one
message with timeout 0 and discard it. -/
def defaultHandler : Handler :=
  fun delim trace buf => (ReadMsg delim 0 trace buf).2

/-- The handler installed by `NewConn(c, handler, delim)`: the supplied one,
or the default when `handler == nil`. -/
def NewConnHandler : Option Handler → Handler
  | none => defaultHandler
  | some f => f

/-- `func (c *Conn) SetMessageHandler(f func(*C))`: `nil` is replaced by
`func(c *C) { c.ReadMsg(0) }` before being stored in `c.msgHandler`. -/
def SetMessageHandler : Option Handler → Handler
  | none => defaultHandler
  | some f => f

/-! ## Helper lemmas -/

/-- Draining the channel appends its contents, in order, to the buffer. -/
theorem updateWholeBuffer_eq (chan : List Byte) :
    ∀ buf, updateWholeBuffer buf chan = buf ++ chan := by
  induction chan with
  | nil => intro buf; simp [updateWholeBuffer]
  | cons b rest ih =>
    intro buf
    simp [updateWholeBuffer, ih (buf ++ [b])]

/-- Scanning a buffer that starts with a delimiter-free segment followed by
the delimiter splits exactly at that delimiter. -/
theorem scanDelim_split (delim : Byte) (pre post : List Byte) (h : delim ∉ pre) :
    scanDelim delim (pre ++ delim :: post) = some (pre, post) := by
  induction pre with
  | nil => simp [scanDelim]
  | cons b rest ih =>
    have hb : b ≠ delim := by
      intro hc
      exact h (hc ▸ List.mem_cons_self b rest)
    have hrest : delim ∉ rest := fun hc => h (List.mem_cons_of_mem b hc)
    simp [scanDelim, hb, ih hrest]

/-- When the first occurrence of the delimiter in the buffer is at index `k`,
the scan returns the first `k` bytes and keeps the bytes after index `k`. -/
theorem scanDelim_first (delim : Byte) (buf : List Byte) (k : Nat)
    (hk : buf[k]? = some delim) (hfirst : delim ∉ buf.take k) :
    scanDelim delim buf = some (buf.take k, buf.drop (k + 1)) := by
  have hlt : k < buf.length := by
    rcases List.getElem?_eq_some.1 hk with ⟨h, _⟩
    exact h
  have hget : buf[k] = delim := by
    rcases List.getElem?_eq_some.1 hk with ⟨h, hv⟩
    exact hv
  have hdecomp : buf = buf.take k ++ delim :: buf.drop (k + 1) := by
    conv_lhs => rw [← List.take_append_drop k buf]
    rw [List.drop_eq_getElem_cons hlt, hget]
  calc scanDelim delim buf
      = scanDelim delim (buf.take k ++ delim :: buf.drop (k + 1)) := by rw [← hdecomp]
    _ = some (buf.take k, buf.drop (k + 1)) := scanDelim_split delim _ _ hfirst

/-- A successful scan decomposes the buffer: message, delimiter, remainder —
and the message itself is delimiter-free. -/
theorem scanDelim_sound (delim : Byte) :
    ∀ buf msg remain, scanDelim delim buf = some (msg, remain) →
      buf = msg ++ delim :: remain ∧ delim ∉ msg := by
  intro buf
  induction buf with
  | nil => intro msg remain h; simp [scanDelim] at h
  | cons b rest ih =>
    intro msg remain h
    by_cases hb : b = delim
    · simp [scanDelim, hb] at h
      obtain ⟨h1, h2⟩ := h
      subst h1; subst h2; subst hb
      simp
    · simp [scanDelim, hb] at h
      cases hrec : scanDelim delim rest with
      | none => rw [hrec] at h; simp at h
      | some p =>
        rw [hrec] at h
        simp at h
        obtain ⟨h1, h2⟩ := h
        obtain ⟨hdecomp, hnot⟩ := ih p.1 p.2 (by rw [hrec])
        constructor
        · rw [← h1, hdecomp, ← h2]; simp
        · rw [← h1]
          intro hmem
          rcases List.mem_cons.1 hmem with hc | hc
          · exact hb hc.symm
          · exact hnot hc

/-- A successful `Read` returns the first `n` bytes of the unconsumed
sequence — the buffer at entry followed by every byte drained from the
channel up to the succeeding iteration — and keeps exactly the rest. -/
theorem Read_ok_characterization (n T : Nat) :
    ∀ (tr : List (Nat × List Byte)) (buf out buf2 : List Byte),
      Read n T tr buf = (.ok out, buf2) →
      ∃ k, k < tr.length ∧
        out = (buf ++ ((tr.take (k + 1)).map Prod.snd).flatten).take n ∧
        buf2 = (buf ++ ((tr.take (k + 1)).map Prod.snd).flatten).drop n ∧
        n ≤ (buf ++ ((tr.take (k + 1)).map Prod.snd).flatten).length := by
  intro tr
  induction tr with
  | nil => intro buf out buf2 h; simp [Read] at h
  | cons entry rest ih =>
    intro buf out buf2 h
    obtain ⟨t, arr⟩ := entry
    rw [Read, updateWholeBuffer_eq] at h
    by_cases htime : t > T ∧ T ≠ 0
    · simp [htime] at h
    · rw [if_neg htime] at h
      by_cases hlen : n ≤ (buf ++ arr).length
      · rw [if_pos hlen] at h
        refine ⟨0, by simp, ?_, ?_, ?_⟩
        · simpa using congrArg Prod.fst h |>.symm
        · simpa using congrArg Prod.snd h |>.symm
        · simpa using hlen
      · rw [if_neg hlen] at h
        obtain ⟨k, hk, hout, hbuf2, hle⟩ := ih (buf ++ arr) out buf2 h
        refine ⟨k + 1, by simpa using hk, ?_, ?_, ?_⟩
        · simpa [List.append_assoc] using hout
        · simpa [List.append_assoc] using hbuf2
        · simpa [List.append_assoc] using hle

/-- A `Read` that returns the timeout error does so only with a non-zero
timeout, at an iteration whose elapsed time strictly exceeds the timeout, and
leaves the buffer holding its entry contents followed (unconsumed) by the
bytes drained during the wait. -/
theorem Read_timeout_characterization (n T : Nat) :
    ∀ (tr : List (Nat × List Byte)) (buf buf2 : List Byte),
      Read n T tr buf = (.timeoutErr, buf2) →
      T ≠ 0 ∧ ∃ (k t : Nat) (arr : List Byte), tr[k]? = some (t, arr) ∧ T < t ∧
        buf2 = buf ++ ((tr.take k).map Prod.snd).flatten := by
  intro tr
  induction tr with
  | nil => intro buf buf2 h; simp [Read] at h
  | cons entry rest ih =>
    intro buf buf2 h
    obtain ⟨t, arr⟩ := entry
    rw [Read, updateWholeBuffer_eq] at h
    by_cases htime : t > T ∧ T ≠ 0
    · rw [if_pos htime] at h
      refine ⟨htime.2, 0, t, arr, by simp, htime.1, ?_⟩
      simpa using congrArg Prod.snd h |>.symm
    · rw [if_neg htime] at h
      by_cases hlen : n ≤ (buf ++ arr).length
      · rw [if_pos hlen] at h
        exact absurd (congrArg Prod.fst h) (by simp)
      · rw [if_neg hlen] at h
        obtain ⟨hT, k, t2, arr2, hidx, hlt, hbuf2⟩ := ih (buf ++ arr) buf2 h
        exact ⟨hT, k + 1, t2, arr2, by simpa using hidx, hlt,
          by simpa [List.append_assoc] using hbuf2⟩

/-- With a zero timeout, `Read` never returns the timeout error. -/
theorem Read_zero_timeout_never (n : Nat) :
    ∀ (tr : List (Nat × List Byte)) (buf : List Byte),
      (Read n 0 tr buf).1 ≠ .timeoutErr := by
  intro tr
  induction tr with
  | nil => intro buf; simp [Read]
  | cons entry rest ih =>
    intro buf
    obtain ⟨t, arr⟩ := entry
    rw [Read]
    rw [if_neg (by simp)]
    by_cases hlen : n ≤ (updateWholeBuffer buf arr).length
    · rw [if_pos hlen]; simp
    · rw [if_neg hlen]; exact ih _

/-- A successful `ReadMsg` splits the unconsumed sequence — entry buffer plus
drained bytes — at its first delimiter: the returned message is
delimiter-free, and message, delimiter and kept remainder reassemble the
whole sequence. -/
theorem ReadMsg_ok_characterization (delim T : Nat) :
    ∀ (tr : List (Nat × List Byte)) (buf msg buf2 : List Byte),
      ReadMsg delim T tr buf = (.ok msg, buf2) →
      ∃ k, k < tr.length ∧
        buf ++ ((tr.take (k + 1)).map Prod.snd).flatten = msg ++ delim :: buf2 ∧
        delim ∉ msg := by
  intro tr
  induction tr with
  | nil => intro buf msg buf2 h; simp [ReadMsg] at h
  | cons entry rest ih =>
    intro buf msg buf2 h
    obtain ⟨t, arr⟩ := entry
    rw [ReadMsg, updateWholeBuffer_eq] at h
    by_cases htime : t > T ∧ T ≠ 0
    · simp [htime] at h
    · rw [if_neg htime] at h
      cases hscan : scanDelim delim (buf ++ arr) with
      | some p =>
        rw [hscan] at h
        simp at h
        obtain ⟨hdecomp, hnot⟩ := scanDelim_sound delim (buf ++ arr) p.1 p.2 (by rw [hscan])
        refine ⟨0, by simp, ?_, ?_⟩
        · simpa [← h.1, ← h.2] using hdecomp
        · rw [← h.1]; exact hnot
      | none =>
        rw [hscan] at h
        obtain ⟨k, hk, hdecomp, hnot⟩ := ih (buf ++ arr) msg buf2 h
        exact ⟨k + 1, by simpa using hk,
          by simpa [List.append_assoc] using hdecomp, hnot⟩

/-- A `ReadMsg` that returns the timeout error does so only with a non-zero
timeout, at an iteration whose elapsed time strictly exceeds the timeout, and
leaves the buffer holding its entry contents followed (unconsumed) by the
bytes drained during the wait. -/
theorem ReadMsg_timeout_characterization (delim T : Nat) :
    ∀ (tr : List (Nat × List Byte)) (buf buf2 : List Byte),
      ReadMsg delim T tr buf = (.timeoutErr, buf2) →
      T ≠ 0 ∧ ∃ (k t : Nat) (arr : List Byte), tr[k]? = some (t, arr) ∧ T < t ∧
        buf2 = buf ++ ((tr.take k).map Prod.snd).flatten := by
  intro tr
  induction tr with
  | nil => intro buf buf2 h; simp [ReadMsg] at h
  | cons entry rest ih =>
    intro buf buf2 h
    obtain ⟨t, arr⟩ := entry
    rw [ReadMsg, updateWholeBuffer_eq] at h
    by_cases htime : t > T ∧ T ≠ 0
    · rw [if_pos htime] at h
      refine ⟨htime.2, 0, t, arr, by simp, htime.1, ?_⟩
      simpa using congrArg Prod.snd h |>.symm
    · rw [if_neg htime] at h
      cases hscan : scanDelim delim (buf ++ arr) with
      | some p =>
        rw [hscan] at h
        exact absurd (congrArg Prod.fst h) (by simp)
      | none =>
        rw [hscan] at h
        obtain ⟨hT, k, t2, arr2, hidx, hlt, hbuf2⟩ := ih (buf ++ arr) buf2 h
        exact ⟨hT, k + 1, t2, arr2, by simpa using hidx, hlt,
          by simpa [List.append_assoc] using hbuf2⟩

/-- With a zero timeout, `ReadMsg` never returns the timeout error. -/
theorem ReadMsg_zero_timeout_never (delim : Nat) :
    ∀ (tr : List (Nat × List Byte)) (buf : List Byte),
      (ReadMsg delim 0 tr buf).1 ≠ .timeoutErr := by
  intro tr
  induction tr with
  | nil => intro buf; simp [ReadMsg]
  | cons entry rest ih =>
    intro buf
    obtain ⟨t, arr⟩ := entry
    rw [ReadMsg]
    rw [if_neg (by simp)]
    cases hscan : scanDelim delim (updateWholeBuffer buf arr) with
    | some p => obtain ⟨m, r⟩ := p; simp
    | none => exact ih _

/-- An exited scheduler goroutine does nothing further: every later
iteration leaves the state untouched and executes no byte, handler or
operation. -/
theorem schedulerRun_exited (picks : List Bool) :
    ∀ s : SchedState, s.exited = true →
      (schedulerRun picks s).1 = s ∧ ∀ e ∈ (schedulerRun picks s).2, e = .idle := by
  induction picks with
  | nil =>
    intro s h
    exact ⟨rfl, by intro e he; simp [schedulerRun] at he⟩
  | cons p ps ih =>
    intro s h
    have hstep : schedulerStep p s = (s, .idle) := by
      simp [schedulerStep, h]
    obtain ⟨h1, h2⟩ := ih s h
    constructor
    · rw [schedulerRun, hstep]
      exact h1
    · intro e he
      rw [schedulerRun, hstep] at he
      rcases List.mem_cons.1 he with hc | hc
      · exact hc
      · exact h2 e hc

/-! ## Claim theorems -/

/-- C1: when the first occurrence of the delimiter in the unconsumed buffer
is at position `k`, `ReadMsg` returns exactly the first `k` bytes (the
delimiter excluded) and leaves the unconsumed buffer starting at position
`k + 1`: the delimiter is consumed and not returned. -/
theorem readMsg_splits_at_first_delimiter (delim T k : Nat) (buf : List Byte)
    (rest : List (Nat × List Byte))
    (hk : buf[k]? = some delim) (hfirst : delim ∉ buf.take k) :
    ReadMsg delim T ((0, []) :: rest) buf = (.ok (buf.take k), buf.drop (k + 1)) := by
  rw [ReadMsg, if_neg (by simp)]
  simp only [updateWholeBuffer]
  rw [scanDelim_first delim buf k hk hfirst]

/-- C1 witness at a concrete buffer: delimiter `0` first occurs at index 2 of
`[1, 2, 0, 3]`, so `ReadMsg` yields `[1, 2]` and keeps `[3]`. -/
theorem readMsg_splits_at_first_delimiter_witness :
    ReadMsg 0 5 ((0, []) :: []) [1, 2, 0, 3] = (.ok [1, 2], [3]) := by
  have h := readMsg_splits_at_first_delimiter 0 5 2 [1, 2, 0, 3] [] (by decide) (by decide)
  simpa using h

/-- C2: for a message free of the delimiter byte, writing it with `WriteMsg`
(which appends the delimiter and performs one write) and reading the
resulting byte sequence with `ReadMsg` returns exactly the original message,
leaving any following bytes in the buffer. -/
theorem writeMsg_readMsg_roundtrip (delim : Byte) (msg rest : List Byte)
    (h : delim ∉ msg) :
    ReadMsg delim 0 ((0, []) :: []) (WriteMsg msg delim ++ rest) = (.ok msg, rest) := by
  rw [ReadMsg, if_neg (by simp)]
  simp only [updateWholeBuffer]
  rw [WriteMsg, List.append_assoc, List.singleton_append]
  rw [scanDelim_split delim msg rest h]

/-- C2 witness: the message `[1, 2, 3]` round-trips through `WriteMsg` and
`ReadMsg` with delimiter `7`. -/
theorem writeMsg_readMsg_roundtrip_witness :
    ReadMsg 7 0 ((0, []) :: []) (WriteMsg [1, 2, 3] 7 ++ [9]) = (.ok [1, 2, 3], [9]) :=
  writeMsg_readMsg_roundtrip 7 [1, 2, 3] [9] (by decide)

/-- C3: with at least `n` unconsumed bytes available after draining the
pending channel, `Read` returns exactly the first `n` bytes in arrival order
and removes exactly them from the front; and every successful `Read`
whatsoever returns a take/drop split of the unconsumed sequence, so returned
bytes plus remaining buffer reassemble it exactly — no byte is lost,
duplicated or reordered across sequential calls. -/
theorem read_consumes_exact_front :
    (∀ (n T : Nat) (buf arr : List Byte) (rest : List (Nat × List Byte)),
      n ≤ (buf ++ arr).length →
      Read n T ((0, arr) :: rest) buf =
        (.ok ((buf ++ arr).take n), (buf ++ arr).drop n) ∧
      (buf ++ arr).take n ++ (buf ++ arr).drop n = buf ++ arr) ∧
    (∀ (n T : Nat) (tr : List (Nat × List Byte)) (buf out buf2 : List Byte),
      Read n T tr buf = (.ok out, buf2) →
      ∃ k, k < tr.length ∧
        out = (buf ++ ((tr.take (k + 1)).map Prod.snd).flatten).take n ∧
        buf2 = (buf ++ ((tr.take (k + 1)).map Prod.snd).flatten).drop n ∧
        out ++ buf2 = buf ++ ((tr.take (k + 1)).map Prod.snd).flatten) := by
  constructor
  · intro n T buf arr rest h
    constructor
    · rw [Read, updateWholeBuffer_eq, if_neg (by simp), if_pos h]
    · exact List.take_append_drop n (buf ++ arr)
  · intro n T tr buf out buf2 h
    obtain ⟨k, hk, hout, hbuf2, _⟩ := Read_ok_characterization n T tr buf out buf2 h
    refine ⟨k, hk, hout, hbuf2, ?_⟩
    rw [hout, hbuf2]
    exact List.take_append_drop _ _

/-- C3 witness: reading 2 bytes from an empty buffer after `[3, 4, 5]`
arrive returns `[3, 4]` and keeps `[5]`. -/
theorem read_consumes_exact_front_witness :
    Read 2 0 ((0, [3, 4, 5]) :: []) [] =
      (.ok (([] ++ [3, 4, 5]).take 2), ([] ++ [3, 4, 5]).drop 2) :=
  (read_consumes_exact_front.1 2 0 [] [3, 4, 5] [] (by decide)).1

/-- C4: a `Read` or `ReadMsg` that fails with the timeout error does so only
with a non-zero timeout, at an iteration whose elapsed time strictly exceeds
the timeout (so never earlier than `T`), and consumes nothing: the buffer it
leaves is its entry contents followed by the bytes that arrived while
waiting.  With a zero timeout neither call ever returns the timeout
error. -/
theorem read_timeout_leaves_buffer :
    (∀ (n T : Nat) (tr : List (Nat × List Byte)) (buf buf2 : List Byte),
      Read n T tr buf = (.timeoutErr, buf2) →
      T ≠ 0 ∧ ∃ (k t : Nat) (arr : List Byte), tr[k]? = some (t, arr) ∧ T < t ∧
        buf2 = buf ++ ((tr.take k).map Prod.snd).flatten) ∧
    (∀ (delim T : Nat) (tr : List (Nat × List Byte)) (buf buf2 : List Byte),
      ReadMsg delim T tr buf = (.timeoutErr, buf2) →
      T ≠ 0 ∧ ∃ (k t : Nat) (arr : List Byte), tr[k]? = some (t, arr) ∧ T < t ∧
        buf2 = buf ++ ((tr.take k).map Prod.snd).flatten) ∧
    (∀ (n : Nat) (tr : List (Nat × List Byte)) (buf : List Byte),
      (Read n 0 tr buf).1 ≠ .timeoutErr) ∧
    (∀ (delim : Nat) (tr : List (Nat × List Byte)) (buf : List Byte),
      (ReadMsg delim 0 tr buf).1 ≠ .timeoutErr) :=
  ⟨fun n T => Read_timeout_characterization n T,
   fun delim T => ReadMsg_timeout_characterization delim T,
   fun n => Read_zero_timeout_never n,
   fun delim => ReadMsg_zero_timeout_never delim⟩

/-- C4 witness: a `Read` of one byte under timeout 3 with nothing arriving
and elapsed time 5 at the poll iteration returns the timeout error with the
buffer untouched, and the theorem recovers the iteration exceeding the
timeout. -/
theorem read_timeout_leaves_buffer_witness :
    3 ≠ 0 ∧ ∃ (k t : Nat) (arr : List Byte),
      (((5, []) :: []) : List (Nat × List Byte))[k]? = some (t, arr) ∧ 3 < t ∧
      ([] : List Byte) =
        [] ++ (((((5, ([] : List Byte)) :: []).take k)).map Prod.snd).flatten :=
  read_timeout_leaves_buffer.1 1 3 ((5, []) :: []) [] [] (by decide)

/-- C5: a pending stop signal takes priority in every scheduler iteration:
whatever else is ready (`pickByte` either way, bytes or operations queued or
not), the iteration drains the stop signal, closes the connection, marks the
goroutine exited, and executes no byte, handler or operation — the buffer and
both work queues are untouched — and no later iteration ever executes
anything. -/
theorem scheduler_stop_priority (pick : Bool) (picks : List Bool) (s : SchedState)
    (hex : s.exited = false) (hstop : s.stopChan ≠ []) :
    (schedulerStep pick s).2 = .stopped ∧
    (schedulerStep pick s).1.connClosed = true ∧
    (schedulerStep pick s).1.exited = true ∧
    (schedulerStep pick s).1.readBuf = s.readBuf ∧
    (schedulerStep pick s).1.readChan = s.readChan ∧
    (schedulerStep pick s).1.opChan = s.opChan ∧
    (∀ e ∈ (schedulerRun picks (schedulerStep pick s).1).2, e = .idle) := by
  have hlen : 0 < s.stopChan.length := List.length_pos.2 hstop
  have hstep : schedulerStep pick s =
      ({ s with stopChan := s.stopChan.tail, connClosed := true, exited := true },
        .stopped) := by
    simp [schedulerStep, hex, hlen]
  rw [hstep]
  exact ⟨rfl, rfl, rfl, rfl, rfl, rfl, (schedulerRun_exited picks _ rfl).2⟩

/-- C5 witness: with a stop signal, a byte and an operation all ready at
once, the iteration stops the scheduler and closes the connection. -/
theorem scheduler_stop_priority_witness :
    (schedulerStep true ⟨[], [7], [1], [true], 0, false, false⟩).2 = .stopped ∧
    (schedulerStep true ⟨[], [7], [1], [true], 0, false, false⟩).1.connClosed = true ∧
    (schedulerStep true ⟨[], [7], [1], [true], 0, false, false⟩).1.readChan = [7] := by
  have h := scheduler_stop_priority true []
    ⟨[], [7], [1], [true], 0, false, false⟩ rfl (by decide)
  exact ⟨h.1, h.2.1, h.2.2.2.2.1⟩

/-- C6 counterexample: the byte reader's channel is bounded (`make(chan
byte, 100)`), not unbounded — with 100 bytes already pending, forwarding one
more byte blocks (`none`), refuting the claim that the send never blocks for
capacity no matter how many bytes are pending. -/
theorem readChan_unbounded_refuted :
    sendReadChan (List.replicate 100 0) 7 = none := by
  simp [sendReadChan, readChanCap]

/-- C6 amended: the pending byte channel is bounded with capacity 100;
forwarding a received byte never blocks while fewer than 100 bytes are
pending, and blocks exactly when 100 bytes are already pending. -/
theorem readChan_bounded_send (pending : List Byte) (b : Byte) :
    (pending.length < 100 → sendReadChan pending b = some (pending ++ [b])) ∧
    (100 ≤ pending.length → sendReadChan pending b = none) := by
  constructor
  · intro h
    simp [sendReadChan, readChanCap, h]
  · intro h
    simp [sendReadChan, readChanCap, Nat.not_lt.2 h]

/-- C6 amended witness: a send with 2 bytes pending goes through; a send with
100 bytes pending blocks. -/
theorem readChan_bounded_send_witness :
    sendReadChan [1, 2] 9 = some [1, 2, 9] ∧
    sendReadChan (List.replicate 100 0) 9 = none :=
  ⟨(readChan_bounded_send [1, 2] 9).1 (by decide),
   (readChan_bounded_send (List.replicate 100 0) 9).2 (by decide)⟩

/-- C7: error handling is asymmetric.  A failing read on the underlying
connection makes the byte reader call `Stop` — setting `isStopped`, sending
the stop signal — and exit without retrying, while a failing `Write` hands
the error straight back to the caller and leaves the connection state, in
particular `isStopped`, untouched. -/
theorem read_write_error_asymmetry (c : Conn) (pending : List Byte)
    (hc : c.isStopped = false) :
    byteReaderStep c pending .fail = (Stop c, pending, .stopping) ∧
    (byteReaderStep c pending .fail).1.isStopped = true ∧
    (byteReaderStep c pending .fail).1.stopChan = c.stopChan ++ [true] ∧
    (∀ w : WriteResult, Write c w = (w, c)) ∧
    (Write c .fail).2.isStopped = false := by
  have hstop : Stop c = { isStopped := true, stopChan := c.stopChan ++ [true] } := by
    simp [Stop, hc]
  refine ⟨by simp [byteReaderStep, hc], ?_, ?_, fun w => rfl, by simp [Write, hc]⟩
  · simp [byteReaderStep, hc, hstop]
  · simp [byteReaderStep, hc, hstop]

/-- C7 witness at a concrete active connection. -/
theorem read_write_error_asymmetry_witness :
    byteReaderStep ⟨false, []⟩ [4] .fail = (Stop ⟨false, []⟩, [4], .stopping) ∧
    (byteReaderStep ⟨false, []⟩ [4] .fail).1.isStopped = true ∧
    (Write ⟨false, []⟩ .fail).2.isStopped = false := by
  have h := read_write_error_asymmetry ⟨false, []⟩ [4] rfl
  exact ⟨h.1, h.2.1, h.2.2.2.2⟩

/-- C8: `Stop` is idempotent.  The first call on an active connection marks
it stopped and enqueues exactly one stop signal; calling `Stop` again changes
nothing and sends no further signal; any `Stop` on an already-stopped
connection is a no-op; and after a `Stop` call `IsStopped` reports true. -/
theorem stop_idempotent_noop (c : Conn) (hc : c.isStopped = false) :
    Stop c = { isStopped := true, stopChan := c.stopChan ++ [true] } ∧
    Stop (Stop c) = Stop c ∧
    (Stop (Stop c)).stopChan = c.stopChan ++ [true] ∧
    IsStopped (Stop c) = true ∧
    (∀ d : Conn, d.isStopped = true → Stop d = d ∧ IsStopped (Stop d) = true) := by
  have h1 : Stop c = { isStopped := true, stopChan := c.stopChan ++ [true] } := by
    simp [Stop, hc]
  have h2 : ∀ d : Conn, d.isStopped = true → Stop d = d := by
    intro d hd
    simp [Stop, hd]
  have h3 : (Stop c).isStopped = true := by rw [h1]
  refine ⟨h1, h2 _ h3, ?_, ?_, fun d hd => ⟨h2 d hd, ?_⟩⟩
  · rw [h2 _ h3, h1]
  · rw [IsStopped, h3]
  · rw [IsStopped, h2 d hd, hd]

/-- C8 witness at a concrete active connection. -/
theorem stop_idempotent_noop_witness :
    Stop ⟨false, []⟩ = ⟨true, [true]⟩ ∧
    Stop (Stop ⟨false, []⟩) = Stop ⟨false, []⟩ ∧
    IsStopped (Stop ⟨false, []⟩) = true := by
  have h := stop_idempotent_noop ⟨false, []⟩ rfl
  exact ⟨h.1, h.2.1, h.2.2.2.1⟩

/-- C9: passing `nil` to `SetMessageHandler` does not install a nil handler:
it installs the very handler `NewConn` installs when given `nil`, namely the
default that reads one message with timeout 0 and discards it — so at a
message boundary the invoked handler is the total default function, never
nil. -/
theorem setMessageHandler_nil_installs_default :
    SetMessageHandler none = NewConnHandler none ∧
    SetMessageHandler none = defaultHandler ∧
    (∀ (d : Byte) (msg rest : List Byte), d ∉ msg →
      defaultHandler d ((0, []) :: []) (msg ++ d :: rest) = rest) := by
  refine ⟨rfl, rfl, ?_⟩
  intro d msg rest h
  show (ReadMsg d 0 ((0, []) :: []) (msg ++ d :: rest)).2 = rest
  rw [ReadMsg, if_neg (by simp)]
  simp only [updateWholeBuffer]
  rw [scanDelim_split d msg rest h]

/-- C9 witness: the default handler discards one full message, leaving the
bytes after the delimiter. -/
theorem setMessageHandler_nil_installs_default_witness :
    defaultHandler 0 ((0, []) :: []) ([1, 2] ++ 0 :: [5]) = [5] :=
  setMessageHandler_nil_installs_default.2.2 0 [1, 2] [5] (by decide)

/-- C10: `Read` of zero bytes succeeds at its very first poll iteration for
every timeout and every buffer, even an empty one: it returns the empty byte
slice and consumes nothing — the unconsumed contents (entry buffer plus
whatever was pending in the channel) are left intact. -/
theorem read_zero_returns_empty (T : Nat) (buf arr : List Byte)
    (rest : List (Nat × List Byte)) :
    Read 0 T ((0, arr) :: rest) buf = (.ok [], buf ++ arr) := by
  rw [Read, updateWholeBuffer_eq, if_neg (by simp), if_pos (Nat.zero_le _)]
  simp

end Bufconn
